import Mathlib

/-!
Shallow embedding of `discordbot.py` (a Discord bot monitoring a Proxmox
cluster): the status-polling / change-notification loop (`monitor`), the
JSON config/history persistence helpers (`load_json` / `save_json`), and
the notification-config chat commands handled by `on_message`.

Modelling conventions:
* Python dicts are association lists `List (String × α)` with
  insertion-order semantics (`dinsert` updates in place, `derase` removes,
  `dlookup` finds the unique binding).
* Machine floats `cpu` and the computed memory fraction are modelled as `ℚ`;
  `mem` / `maxmem` byte counts as `ℕ`.  Python `mem/maxmem` raises
  `ZeroDivisionError` when `maxmem = 0`, modelled by `memFrac` returning
  `none` in that case.
* One iteration of the `while` loop in `monitor` is `monitorCycle`; the
  input of a cycle is the fetched cluster state (`Obs`), or `none` when
  `get_node_status` / `get_vm_status` raises.  The `try/except` swallowing
  an exception mid-cycle keeps the in-place mutations already performed and
  skips the rest of the cycle, which the embedding reproduces by carrying
  the partial history through the `Except.error` branch.
* `client.get_channel` is modelled as resolving every registered non-zero
  channel id; `channel.send` is modelled by recording a `Notif` value.
  Python truthiness in `if prev and ...` and `if channel_id:` is modelled
  explicitly (`"" `and `0` are falsy).
-/

/-- Association-list lookup, mirroring Python `d.get(k)` / `d[k]`. -/
def dlookup {α : Type} (k : String) : List (String × α) → Option α
  | [] => none
  | p :: rest => if p.1 = k then some p.2 else dlookup k rest

/-- Association-list update, mirroring Python `d[k] = v` (insertion order
preserved, existing key updated in place). -/
def dinsert {α : Type} (k : String) (v : α) : List (String × α) → List (String × α)
  | [] => [(k, v)]
  | p :: rest => if p.1 = k then (k, v) :: rest else p :: dinsert k v rest

/-- Association-list removal, mirroring Python `d.pop(k)`. -/
def derase {α : Type} (k : String) (m : List (String × α)) : List (String × α) :=
  m.filter (fun p => p.1 ≠ k)

theorem dlookup_dinsert_self {α : Type} (k : String) (v : α) (m : List (String × α)) :
    dlookup k (dinsert k v m) = some v := by
  induction m with
  | nil => simp [dinsert, dlookup]
  | cons p rest ih =>
    by_cases h : p.1 = k
    · simp [dinsert, h, dlookup]
    · simp [dinsert, h, dlookup, ih]

theorem dlookup_dinsert_ne {α : Type} (k k' : String) (v : α) (m : List (String × α))
    (h : k ≠ k') : dlookup k' (dinsert k v m) = dlookup k' m := by
  induction m with
  | nil => simp [dinsert, dlookup, h]
  | cons p rest ih =>
    by_cases hp : p.1 = k
    · simp [dinsert, hp, dlookup, h]
    · by_cases hp' : p.1 = k'
      · simp [dinsert, hp, dlookup, hp', Ne.symm h]
      · simp [dinsert, hp, dlookup, hp', ih, Ne.symm h]

theorem dlookup_derase_self {α : Type} (k : String) (m : List (String × α)) :
    dlookup k (derase k m) = none := by
  induction m with
  | nil => simp [derase, dlookup]
  | cons p rest ih =>
    by_cases h : p.1 = k
    · simpa [derase, h] using ih
    · simpa [derase, h, dlookup] using ih

theorem isSome_dlookup_dinsert {α : Type} (k k' : String) (v : α) (m : List (String × α))
    (h : (dlookup k' m).isSome) : (dlookup k' (dinsert k v m)).isSome := by
  by_cases hk : k = k'
  · subst hk; simp [dlookup_dinsert_self]
  · rwa [dlookup_dinsert_ne k k' v m hk]

/-- `load_json(file_path, default)`: returns the parsed file content when the
file exists, else the default.  The file system is an association list from
path to the (already parsed) JSON value; `json.load ∘ json.dump` is the
identity on JSON-serialisable data, so a file's content is stored as the
value itself. -/
def load_json {α : Type} (fs : List (String × α)) (file_path : String) (default : α) : α :=
  match dlookup file_path fs with
  | some d => d
  | none => default

/-- `save_json(file_path, data)`: opens the file in `"w"` mode (truncating)
and serialises the full structure, i.e. the stored value at that path is
replaced wholesale. -/
def save_json {α : Type} (fs : List (String × α)) (file_path : String) (data : α) :
    List (String × α) :=
  dinsert file_path data fs

/-- One record of `get_node_status`: name, status (already uppercased at
fetch, line 80 of the source), cpu fraction, memory used / max in bytes. -/
structure NodeRec where
  node : String
  status : String
  cpu : ℚ
  mem : ℕ
  maxmem : ℕ
deriving DecidableEq

/-- One qemu record of `get_vm_status` (raw API casing for `status`). -/
structure VmRec where
  name : String
  vmid : ℕ
  status : String
  cpu : ℚ
  mem : ℕ
  maxmem : ℕ
deriving DecidableEq

/-- `{"time": timestamp, "cpu": ..., "mem": ...}` appended to
`history_data[name]`; the timestamp is modelled as a natural number
(ISO timestamps compare chronologically). -/
structure HistoryEntry where
  time : ℕ
  cpu : ℚ
  mem : ℚ
deriving DecidableEq

/-- The cluster state fetched at the top of one poll cycle. -/
structure Obs where
  time : ℕ
  nodes : List NodeRec
  vms : List VmRec
deriving DecidableEq

/-- `notify_config = {"nodes": {...}, "vms": {...}}`, name ↦ channel id. -/
structure NotifyConfig where
  nodes : List (String × ℕ)
  vms : List (String × ℕ)
deriving DecidableEq

/-- The bot's mutable state: the in-memory `previous_status`,
`notify_config` and `history_data` globals, plus the current content of
`status_history.json` (written by `save_json` inside the cycle). -/
structure BotState where
  previous_status : List (String × String)
  notify_config : NotifyConfig
  history_data : List (String × List HistoryEntry)
  history_file : List (String × List HistoryEntry)
deriving DecidableEq

/-- A `channel.send(...)` performed by the monitor loop. -/
structure Notif where
  channel : ℕ
  name : String
  text : String
deriving DecidableEq

/-- Python `s.upper()` on the status strings. -/
def strUpper (s : String) : String :=
  String.mk (s.data.map Char.toUpper)

/-- `mem/maxmem` in Python: float division, raising `ZeroDivisionError`
(`none`) when `maxmem = 0`. -/
def memFrac (mem maxmem : ℕ) : Option ℚ :=
  if maxmem = 0 then none else some ((mem : ℚ) / (maxmem : ℚ))

/-- `history_data.setdefault(name, []).append(entry)`. -/
def appendHistory (n : String) (e : HistoryEntry) :
    List (String × List HistoryEntry) → List (String × List HistoryEntry)
  | [] => [(n, [e])]
  | p :: rest => if p.1 = n then (p.1, p.2 ++ [e]) :: rest else p :: appendHistory n e rest

/-- `history_data.get(name, [])` (for stating lookups). -/
def histLookup (n : String) (h : List (String × List HistoryEntry)) : List HistoryEntry :=
  (dlookup n h).getD []

/-- The node half of the history-saving loop (source lines 176-178).  A
`ZeroDivisionError` aborts the loop; the partial, already-mutated history is
carried in the `error` branch (Python mutates `history_data` in place). -/
def histNodes (ts : ℕ) : List NodeRec → List (String × List HistoryEntry) →
    Except (List (String × List HistoryEntry)) (List (String × List HistoryEntry))
  | [], h => .ok h
  | nd :: rest, h =>
    match memFrac nd.mem nd.maxmem with
    | none => .error h
    | some m => histNodes ts rest (appendHistory nd.node ⟨ts, nd.cpu, m⟩ h)

/-- The VM half of the history-saving loop (source lines 179-181). -/
def histVms (ts : ℕ) : List VmRec → List (String × List HistoryEntry) →
    Except (List (String × List HistoryEntry)) (List (String × List HistoryEntry))
  | [], h => .ok h
  | vm :: rest, h =>
    match memFrac vm.mem vm.maxmem with
    | none => .error h
    | some m => histVms ts rest (appendHistory vm.name ⟨ts, vm.cpu, m⟩ h)

/-- `if prev and prev != status and status=="STOPPED"` — Python truthiness:
an empty previous status or a missing cache entry is falsy. -/
def shouldNotify (prev : Option String) (status : String) : Bool :=
  match prev with
  | some p => (p != "") && (p != status) && (status == "STOPPED")
  | none => false

/-- `channel_id = cfg.get(name)` followed by `if channel_id:` — a missing
entry or a zero channel id is falsy.  `client.get_channel` is modelled as
resolving every such id. -/
def chanFor (cfg : List (String × ℕ)) (n : String) : Option ℕ :=
  match dlookup n cfg with
  | some c => if c = 0 then none else some c
  | none => none

def nodeMsg (n : String) : String :=
  "⚠️ ノード `" ++ n ++ "` が停止しました！"

def vmMsg (n : String) (vmid : ℕ) : String :=
  "⚠️ VM `" ++ n ++ "`(" ++ toString vmid ++ ") が停止しました！"

/-- The messages sent for one node in the notification loop (lines 188-196). -/
def nodeSent (cfg : List (String × ℕ)) (prev : List (String × String)) (nd : NodeRec) :
    List Notif :=
  if shouldNotify (dlookup nd.node prev) (strUpper nd.status) then
    match chanFor cfg nd.node with
    | some c => [⟨c, nd.node, nodeMsg nd.node⟩]
    | none => []
  else []

/-- The messages sent for one VM (lines 200-208). -/
def vmSent (cfg : List (String × ℕ)) (prev : List (String × String)) (vm : VmRec) :
    List Notif :=
  if shouldNotify (dlookup vm.name prev) (strUpper vm.status) then
    match chanFor cfg vm.name with
    | some c => [⟨c, vm.name, vmMsg vm.name vm.vmid⟩]
    | none => []
  else []

/-- The node notification loop (lines 187-197): threads `previous_status`
through (each iteration ends with `previous_status[name] = status`). -/
def notifyNodes (cfg : List (String × ℕ)) :
    List NodeRec → List (String × String) → List (String × String) × List Notif
  | [], prev => (prev, [])
  | nd :: rest, prev =>
    let sent := nodeSent cfg prev nd
    let r := notifyNodes cfg rest (dinsert nd.node (strUpper nd.status) prev)
    (r.1, sent ++ r.2)

/-- The VM notification loop (lines 199-209), run after the node loop on the
same shared `previous_status`. -/
def notifyVms (cfg : List (String × ℕ)) :
    List VmRec → List (String × String) → List (String × String) × List Notif
  | [], prev => (prev, [])
  | vm :: rest, prev =>
    let sent := vmSent cfg prev vm
    let r := notifyVms cfg rest (dinsert vm.name (strUpper vm.status) prev)
    (r.1, sent ++ r.2)

/-- One iteration of the `while not client.is_closed()` loop in `monitor`
(lines 162-214).  `fetch = none` models an exception in
`get_node_status` / `get_vm_status`; a `ZeroDivisionError` in the history
loops keeps the partial in-place mutations and skips the rest of the cycle
(the `except` clause catches and logs).  On success the history is saved to
`status_history.json` before the notification loops run. -/
def monitorCycle (s : BotState) (fetch : Option Obs) : BotState × List Notif :=
  match fetch with
  | none => (s, [])
  | some obs =>
    match histNodes obs.time obs.nodes s.history_data with
    | .error h => ({ s with history_data := h }, [])
    | .ok h1 =>
      match histVms obs.time obs.vms h1 with
      | .error h => ({ s with history_data := h }, [])
      | .ok h2 =>
        let rn := notifyNodes s.notify_config.nodes obs.nodes s.previous_status
        let rv := notifyVms s.notify_config.vms obs.vms rn.1
        ({ s with history_data := h2, history_file := h2, previous_status := rv.1 },
         rn.2 ++ rv.2)

/-- A sequence of poll cycles, collecting every notification sent. -/
def runCycles (s : BotState) : List (Option Obs) → BotState × List Notif
  | [] => (s, [])
  | f :: rest =>
    let r := monitorCycle s f
    let r2 := runCycles r.1 rest
    (r2.1, r.2 ++ r2.2)

/-- Bot state at process start with no persisted files: `previous_status`
and `history_data` are empty, `notify_config` is whatever was loaded. -/
def initState (cfg : NotifyConfig) : BotState :=
  { previous_status := [], notify_config := cfg, history_data := [], history_file := [] }

/-- All names observed in a cycle, nodes first (the order the loops run). -/
def obsNames (obs : Obs) : List String :=
  obs.nodes.map (fun nd => nd.node) ++ obs.vms.map (fun vm => vm.name)

/-- No entity in the cycle reports `maxmem = 0`, i.e. the history loops
complete without a `ZeroDivisionError`. -/
def cycleOk (obs : Obs) : Bool :=
  obs.nodes.all (fun nd => nd.maxmem != 0) && obs.vms.all (fun vm => vm.maxmem != 0)

/-- The name `n` is observed exactly once in the cycle, with status `st`. -/
def obsStatusOnce (obs : Obs) (n st : String) : Bool :=
  ((obsNames obs).count n == 1) &&
    (obs.nodes.any (fun nd => nd.node == n && nd.status == st) ||
     obs.vms.any (fun vm => vm.name == n && vm.status == st))

/-- Number of notifications sent for entity name `n`. -/
def countName (l : List Notif) (n : String) : ℕ :=
  (l.filter (fun m => m.name == n)).length

theorem histLookup_appendHistory_self (n : String) (e : HistoryEntry)
    (h : List (String × List HistoryEntry)) :
    histLookup n (appendHistory n e h) = histLookup n h ++ [e] := by
  induction h with
  | nil => simp [appendHistory, histLookup, dlookup]
  | cons p rest ih =>
    by_cases hp : p.1 = n
    · simp [appendHistory, hp, histLookup, dlookup]
    · simpa [appendHistory, hp, histLookup, dlookup] using ih

theorem histLookup_appendHistory_ne (n m : String) (e : HistoryEntry)
    (h : List (String × List HistoryEntry)) (hne : n ≠ m) :
    histLookup m (appendHistory n e h) = histLookup m h := by
  induction h with
  | nil => simp [appendHistory, histLookup, dlookup, hne]
  | cons p rest ih =>
    by_cases hp : p.1 = n
    · simp [appendHistory, hp, histLookup, dlookup, hne, Ne.symm hne]
    · by_cases hm : p.1 = m
      · simp [appendHistory, hp, histLookup, dlookup, hm, Ne.symm hne]
      · simpa [appendHistory, hp, histLookup, dlookup, hm] using ih

theorem memFrac_eq_some {mem maxmem : ℕ} {m : ℚ} (h : memFrac mem maxmem = some m) :
    maxmem ≠ 0 ∧ m = (mem : ℚ) / (maxmem : ℚ) := by
  by_cases h0 : maxmem = 0
  · simp [memFrac, h0] at h
  · simp [memFrac, h0] at h
    exact ⟨h0, h.symm⟩

theorem memFrac_zero (mem : ℕ) : memFrac mem 0 = none := by
  simp [memFrac]

theorem histNodes_isOk (ts : ℕ) (nodes : List NodeRec)
    (h : List (String × List HistoryEntry)) (hok : ∀ nd ∈ nodes, nd.maxmem ≠ 0) :
    ∃ h', histNodes ts nodes h = .ok h' := by
  induction nodes generalizing h with
  | nil => exact ⟨h, rfl⟩
  | cons nd rest ih =>
    have hnd : nd.maxmem ≠ 0 := hok nd (List.mem_cons_self nd rest)
    have : memFrac nd.mem nd.maxmem = some ((nd.mem : ℚ) / (nd.maxmem : ℚ)) := by
      simp [memFrac, hnd]
    obtain ⟨h', hh⟩ := ih (appendHistory nd.node ⟨ts, nd.cpu, (nd.mem : ℚ) / (nd.maxmem : ℚ)⟩ h)
      (fun x hx => hok x (List.mem_cons_of_mem nd hx))
    exact ⟨h', by simp [histNodes, this, hh]⟩

theorem histVms_isOk (ts : ℕ) (vms : List VmRec)
    (h : List (String × List HistoryEntry)) (hok : ∀ vm ∈ vms, vm.maxmem ≠ 0) :
    ∃ h', histVms ts vms h = .ok h' := by
  induction vms generalizing h with
  | nil => exact ⟨h, rfl⟩
  | cons vm rest ih =>
    have hvm : vm.maxmem ≠ 0 := hok vm (List.mem_cons_self vm rest)
    have : memFrac vm.mem vm.maxmem = some ((vm.mem : ℚ) / (vm.maxmem : ℚ)) := by
      simp [memFrac, hvm]
    obtain ⟨h', hh⟩ := ih (appendHistory vm.name ⟨ts, vm.cpu, (vm.mem : ℚ) / (vm.maxmem : ℚ)⟩ h)
      (fun x hx => hok x (List.mem_cons_of_mem vm hx))
    exact ⟨h', by simp [histVms, this, hh]⟩

theorem histNodes_isErr (ts : ℕ) (nodes : List NodeRec)
    (h : List (String × List HistoryEntry)) (hbad : ∃ nd ∈ nodes, nd.maxmem = 0) :
    ∃ h', histNodes ts nodes h = .error h' := by
  induction nodes generalizing h with
  | nil => simp at hbad
  | cons nd rest ih =>
    by_cases h0 : nd.maxmem = 0
    · exact ⟨h, by simp [histNodes, memFrac, h0]⟩
    · obtain ⟨x, hx, hx0⟩ := hbad
      rcases List.mem_cons.mp hx with h1 | h1
      · exact absurd (h1 ▸ hx0) h0
      · have : memFrac nd.mem nd.maxmem = some ((nd.mem : ℚ) / (nd.maxmem : ℚ)) := by
          simp [memFrac, h0]
        obtain ⟨h', hh⟩ := ih
          (appendHistory nd.node ⟨ts, nd.cpu, (nd.mem : ℚ) / (nd.maxmem : ℚ)⟩ h) ⟨x, h1, hx0⟩
        exact ⟨h', by simp [histNodes, this, hh]⟩

theorem histVms_isErr (ts : ℕ) (vms : List VmRec)
    (h : List (String × List HistoryEntry)) (hbad : ∃ vm ∈ vms, vm.maxmem = 0) :
    ∃ h', histVms ts vms h = .error h' := by
  induction vms generalizing h with
  | nil => simp at hbad
  | cons vm rest ih =>
    by_cases h0 : vm.maxmem = 0
    · exact ⟨h, by simp [histVms, memFrac, h0]⟩
    · obtain ⟨x, hx, hx0⟩ := hbad
      rcases List.mem_cons.mp hx with h1 | h1
      · exact absurd (h1 ▸ hx0) h0
      · have : memFrac vm.mem vm.maxmem = some ((vm.mem : ℚ) / (vm.maxmem : ℚ)) := by
          simp [memFrac, h0]
        obtain ⟨h', hh⟩ := ih
          (appendHistory vm.name ⟨ts, vm.cpu, (vm.mem : ℚ) / (vm.maxmem : ℚ)⟩ h) ⟨x, h1, hx0⟩
        exact ⟨h', by simp [histVms, this, hh]⟩

theorem histNodes_lookup (ts : ℕ) (nodes : List NodeRec)
    (h h' : List (String × List HistoryEntry)) (n : String)
    (hres : histNodes ts nodes h = .ok h') :
    histLookup n h' = histLookup n h ++
      (nodes.filter (fun nd => nd.node == n)).map
        (fun nd => ⟨ts, nd.cpu, (nd.mem : ℚ) / (nd.maxmem : ℚ)⟩) := by
  induction nodes generalizing h with
  | nil =>
    simp only [histNodes] at hres
    cases hres
    simp
  | cons nd rest ih =>
    simp only [histNodes] at hres
    rcases hm : memFrac nd.mem nd.maxmem with _ | m
    · rw [hm] at hres; cases hres
    · rw [hm] at hres
      obtain ⟨hne, hmv⟩ := memFrac_eq_some hm
      subst hmv
      by_cases hn : nd.node = n
      · have := ih (appendHistory nd.node ⟨ts, nd.cpu, (nd.mem : ℚ) / (nd.maxmem : ℚ)⟩ h) hres
        rw [this, hn, histLookup_appendHistory_self]
        simp [hn, List.append_assoc]
      · have := ih (appendHistory nd.node ⟨ts, nd.cpu, (nd.mem : ℚ) / (nd.maxmem : ℚ)⟩ h) hres
        rw [this, histLookup_appendHistory_ne nd.node n _ h hn]
        simp [hn]

theorem histVms_lookup (ts : ℕ) (vms : List VmRec)
    (h h' : List (String × List HistoryEntry)) (n : String)
    (hres : histVms ts vms h = .ok h') :
    histLookup n h' = histLookup n h ++
      (vms.filter (fun vm => vm.name == n)).map
        (fun vm => ⟨ts, vm.cpu, (vm.mem : ℚ) / (vm.maxmem : ℚ)⟩) := by
  induction vms generalizing h with
  | nil =>
    simp only [histVms] at hres
    cases hres
    simp
  | cons vm rest ih =>
    simp only [histVms] at hres
    rcases hm : memFrac vm.mem vm.maxmem with _ | m
    · rw [hm] at hres; cases hres
    · rw [hm] at hres
      obtain ⟨hne, hmv⟩ := memFrac_eq_some hm
      subst hmv
      by_cases hn : vm.name = n
      · have := ih (appendHistory vm.name ⟨ts, vm.cpu, (vm.mem : ℚ) / (vm.maxmem : ℚ)⟩ h) hres
        rw [this, hn, histLookup_appendHistory_self]
        simp [hn, List.append_assoc]
      · have := ih (appendHistory vm.name ⟨ts, vm.cpu, (vm.mem : ℚ) / (vm.maxmem : ℚ)⟩ h) hres
        rw [this, histLookup_appendHistory_ne vm.name n _ h hn]
        simp [hn]

theorem countName_append (l1 l2 : List Notif) (n : String) :
    countName (l1 ++ l2) n = countName l1 n + countName l2 n := by
  simp [countName, List.filter_append]

theorem countName_nodeSent_ne (cfg : List (String × ℕ)) (prev : List (String × String))
    (nd : NodeRec) (n : String) (h : nd.node ≠ n) :
    countName (nodeSent cfg prev nd) n = 0 := by
  unfold nodeSent
  split
  · rcases chanFor cfg nd.node with _ | c
    · simp [countName]
    · simp [countName, h]
  · simp [countName]

theorem countName_vmSent_ne (cfg : List (String × ℕ)) (prev : List (String × String))
    (vm : VmRec) (n : String) (h : vm.name ≠ n) :
    countName (vmSent cfg prev vm) n = 0 := by
  unfold vmSent
  split
  · rcases chanFor cfg vm.name with _ | c
    · simp [countName]
    · simp [countName, h]
  · simp [countName]

theorem nodeSent_congr (cfg : List (String × ℕ)) (prev prev' : List (String × String))
    (nd : NodeRec) (h : dlookup nd.node prev = dlookup nd.node prev') :
    nodeSent cfg prev nd = nodeSent cfg prev' nd := by
  unfold nodeSent
  rw [h]

theorem vmSent_congr (cfg : List (String × ℕ)) (prev prev' : List (String × String))
    (vm : VmRec) (h : dlookup vm.name prev = dlookup vm.name prev') :
    vmSent cfg prev vm = vmSent cfg prev' vm := by
  unfold vmSent
  rw [h]

theorem notifyNodes_notMem (cfg : List (String × ℕ)) (nodes : List NodeRec)
    (prev : List (String × String)) (n : String)
    (h : n ∉ nodes.map (fun nd => nd.node)) :
    dlookup n (notifyNodes cfg nodes prev).1 = dlookup n prev ∧
      countName (notifyNodes cfg nodes prev).2 n = 0 := by
  induction nodes generalizing prev with
  | nil => simp [notifyNodes, countName]
  | cons nd rest ih =>
    simp only [List.map_cons, List.mem_cons, not_or] at h
    obtain ⟨hne, hrest⟩ := h
    have hne' : nd.node ≠ n := fun hh => hne hh.symm
    obtain ⟨ih1, ih2⟩ := ih (dinsert nd.node (strUpper nd.status) prev) hrest
    constructor
    · rw [notifyNodes]
      simpa [dlookup_dinsert_ne nd.node n _ prev hne'] using ih1
    · rw [notifyNodes]
      simp only [countName_append]
      rw [countName_nodeSent_ne cfg prev nd n hne', ih2]

theorem notifyVms_notMem (cfg : List (String × ℕ)) (vms : List VmRec)
    (prev : List (String × String)) (n : String)
    (h : n ∉ vms.map (fun vm => vm.name)) :
    dlookup n (notifyVms cfg vms prev).1 = dlookup n prev ∧
      countName (notifyVms cfg vms prev).2 n = 0 := by
  induction vms generalizing prev with
  | nil => simp [notifyVms, countName]
  | cons vm rest ih =>
    simp only [List.map_cons, List.mem_cons, not_or] at h
    obtain ⟨hne, hrest⟩ := h
    have hne' : vm.name ≠ n := fun hh => hne hh.symm
    obtain ⟨ih1, ih2⟩ := ih (dinsert vm.name (strUpper vm.status) prev) hrest
    constructor
    · rw [notifyVms]
      simpa [dlookup_dinsert_ne vm.name n _ prev hne'] using ih1
    · rw [notifyVms]
      simp only [countName_append]
      rw [countName_vmSent_ne cfg prev vm n hne', ih2]

theorem count_eq_zero_notMem {n : String} {l : List String} (h : l.count n = 0) : n ∉ l := by
  simpa [List.count_eq_zero] using h

theorem notifyNodes_single (cfg : List (String × ℕ)) (nodes : List NodeRec)
    (prev : List (String × String)) (nd : NodeRec) (hmem : nd ∈ nodes)
    (hcount : (nodes.map (fun x => x.node)).count nd.node = 1) :
    dlookup nd.node (notifyNodes cfg nodes prev).1 = some (strUpper nd.status) ∧
      countName (notifyNodes cfg nodes prev).2 nd.node =
        countName (nodeSent cfg prev nd) nd.node := by
  induction nodes generalizing prev with
  | nil => simp at hmem
  | cons a rest ih =>
    by_cases ha : a.node = nd.node
    · have hz : (rest.map (fun x => x.node)).count nd.node = 0 := by
        simpa [List.count_cons, ha] using hcount
      have hnotin : nd.node ∉ rest.map (fun x => x.node) := count_eq_zero_notMem hz
      have hand : nd = a := by
        rcases List.mem_cons.mp hmem with h1 | h1
        · exact h1
        · exact absurd (List.mem_map_of_mem (fun x => x.node) h1) hnotin
      subst hand
      obtain ⟨h1, h2⟩ := notifyNodes_notMem cfg rest
        (dinsert nd.node (strUpper nd.status) prev) nd.node hnotin
      constructor
      · rw [notifyNodes]
        simpa [h1] using dlookup_dinsert_self nd.node (strUpper nd.status) prev
      · rw [notifyNodes]
        simp only [countName_append]
        rw [h2]
        omega
    · have hmem' : nd ∈ rest := by
        rcases List.mem_cons.mp hmem with h1 | h1
        · exact absurd (congrArg NodeRec.node h1).symm ha
        · exact h1
      have hcount' : (rest.map (fun x => x.node)).count nd.node = 1 := by
        simpa [List.count_cons, ha] using hcount
      obtain ⟨ih1, ih2⟩ := ih (dinsert a.node (strUpper a.status) prev) hmem' hcount'
      have hlk : dlookup nd.node (dinsert a.node (strUpper a.status) prev) = dlookup nd.node prev :=
        dlookup_dinsert_ne a.node nd.node _ prev ha
      constructor
      · rw [notifyNodes]; exact ih1
      · rw [notifyNodes]
        simp only [countName_append]
        rw [countName_nodeSent_ne cfg prev a nd.node ha, ih2,
          nodeSent_congr cfg (dinsert a.node (strUpper a.status) prev) prev nd hlk]
        omega

theorem notifyVms_single (cfg : List (String × ℕ)) (vms : List VmRec)
    (prev : List (String × String)) (vm : VmRec) (hmem : vm ∈ vms)
    (hcount : (vms.map (fun x => x.name)).count vm.name = 1) :
    dlookup vm.name (notifyVms cfg vms prev).1 = some (strUpper vm.status) ∧
      countName (notifyVms cfg vms prev).2 vm.name =
        countName (vmSent cfg prev vm) vm.name := by
  induction vms generalizing prev with
  | nil => simp at hmem
  | cons a rest ih =>
    by_cases ha : a.name = vm.name
    · have hz : (rest.map (fun x => x.name)).count vm.name = 0 := by
        simpa [List.count_cons, ha] using hcount
      have hnotin : vm.name ∉ rest.map (fun x => x.name) := count_eq_zero_notMem hz
      have hand : vm = a := by
        rcases List.mem_cons.mp hmem with h1 | h1
        · exact h1
        · exact absurd (List.mem_map_of_mem (fun x => x.name) h1) hnotin
      subst hand
      obtain ⟨h1, h2⟩ := notifyVms_notMem cfg rest
        (dinsert vm.name (strUpper vm.status) prev) vm.name hnotin
      constructor
      · rw [notifyVms]
        simpa [h1] using dlookup_dinsert_self vm.name (strUpper vm.status) prev
      · rw [notifyVms]
        simp only [countName_append]
        rw [h2]
        omega
    · have hmem' : vm ∈ rest := by
        rcases List.mem_cons.mp hmem with h1 | h1
        · exact absurd (congrArg VmRec.name h1).symm ha
        · exact h1
      have hcount' : (rest.map (fun x => x.name)).count vm.name = 1 := by
        simpa [List.count_cons, ha] using hcount
      obtain ⟨ih1, ih2⟩ := ih (dinsert a.name (strUpper a.status) prev) hmem' hcount'
      have hlk : dlookup vm.name (dinsert a.name (strUpper a.status) prev) = dlookup vm.name prev :=
        dlookup_dinsert_ne a.name vm.name _ prev ha
      constructor
      · rw [notifyVms]; exact ih1
      · rw [notifyVms]
        simp only [countName_append]
        rw [countName_vmSent_ne cfg prev a vm.name ha, ih2,
          vmSent_congr cfg (dinsert a.name (strUpper a.status) prev) prev vm hlk]
        omega

theorem cycleOk_nodes {obs : Obs} (h : cycleOk obs = true) :
    ∀ nd ∈ obs.nodes, nd.maxmem ≠ 0 := by
  simp only [cycleOk, Bool.and_eq_true, List.all_eq_true, bne_iff_ne] at h
  exact h.1

theorem cycleOk_vms {obs : Obs} (h : cycleOk obs = true) :
    ∀ vm ∈ obs.vms, vm.maxmem ≠ 0 := by
  simp only [cycleOk, Bool.and_eq_true, List.all_eq_true, bne_iff_ne] at h
  exact h.2

/-- Shape of a completed cycle: both history loops succeed, the history is
saved to the file, and the notification loops run on the shared
`previous_status`. -/
theorem monitorCycle_ok_spec (s : BotState) (obs : Obs) (hok : cycleOk obs = true) :
    ∃ h1 h2, histNodes obs.time obs.nodes s.history_data = .ok h1 ∧
      histVms obs.time obs.vms h1 = .ok h2 ∧
      (monitorCycle s (some obs)).1.history_data = h2 ∧
      (monitorCycle s (some obs)).1.history_file = h2 ∧
      (monitorCycle s (some obs)).1.notify_config = s.notify_config ∧
      (monitorCycle s (some obs)).1.previous_status =
        (notifyVms s.notify_config.vms obs.vms
          (notifyNodes s.notify_config.nodes obs.nodes s.previous_status).1).1 ∧
      (monitorCycle s (some obs)).2 =
        (notifyNodes s.notify_config.nodes obs.nodes s.previous_status).2 ++
          (notifyVms s.notify_config.vms obs.vms
            (notifyNodes s.notify_config.nodes obs.nodes s.previous_status).1).2 := by
  obtain ⟨h1, e1⟩ := histNodes_isOk obs.time obs.nodes s.history_data (cycleOk_nodes hok)
  obtain ⟨h2, e2⟩ := histVms_isOk obs.time obs.vms h1 (cycleOk_vms hok)
  refine ⟨h1, h2, e1, e2, ?_, ?_, ?_, ?_, ?_⟩ <;> simp [monitorCycle, e1, e2]

/-- Shape of a cycle aborted by a `ZeroDivisionError` in the history loops:
no notification is sent, `previous_status`, the history file and the notify
config are untouched (only the in-memory history holds the partial
mutations made before the exception). -/
theorem monitorCycle_err_spec (s : BotState) (obs : Obs) (hbad : cycleOk obs = false) :
    (monitorCycle s (some obs)).2 = [] ∧
      (monitorCycle s (some obs)).1.previous_status = s.previous_status ∧
      (monitorCycle s (some obs)).1.history_file = s.history_file ∧
      (monitorCycle s (some obs)).1.notify_config = s.notify_config := by
  by_cases hn : ∃ nd ∈ obs.nodes, nd.maxmem = 0
  · obtain ⟨h', e1⟩ := histNodes_isErr obs.time obs.nodes s.history_data hn
    simp [monitorCycle, e1]
  · have hnodes : ∀ nd ∈ obs.nodes, nd.maxmem ≠ 0 := by
      intro nd hm
      exact fun h0 => hn ⟨nd, hm, h0⟩
    have hv : ∃ vm ∈ obs.vms, vm.maxmem = 0 := by
      simp only [cycleOk, Bool.and_eq_false_iff, List.all_eq_false, bne, Bool.not_eq_true',
        Bool.not_eq_false] at hbad
      rcases hbad with h | h
      · obtain ⟨nd, hm, h0⟩ := h
        exact absurd (by simpa using h0) (hnodes nd hm)
      · obtain ⟨vm, hm, h0⟩ := h
        exact ⟨vm, hm, by simpa using h0⟩
    obtain ⟨h1, e1⟩ := histNodes_isOk obs.time obs.nodes s.history_data hnodes
    obtain ⟨h', e2⟩ := histVms_isErr obs.time obs.vms h1 hv
    simp [monitorCycle, e1, e2]

theorem obsNames_count_split (obs : Obs) (n : String) :
    (obsNames obs).count n =
      (obs.nodes.map (fun nd => nd.node)).count n +
        (obs.vms.map (fun vm => vm.name)).count n := by
  simp [obsNames, List.count_append]

/-- A completed cycle in which the name `n` is observed exactly once, as the
node `nd`: the notifications for `n` are exactly those produced by `nd`'s
own step, evaluated against the pre-cycle cache. -/
theorem cycle_count_node (s : BotState) (obs : Obs) (nd : NodeRec)
    (hok : cycleOk obs = true) (hmem : nd ∈ obs.nodes)
    (hone : (obsNames obs).count nd.node = 1) :
    countName (monitorCycle s (some obs)).2 nd.node =
      countName (nodeSent s.notify_config.nodes s.previous_status nd) nd.node := by
  obtain ⟨h1, h2, e1, e2, ed, ef, ec, ep, en⟩ := monitorCycle_ok_spec s obs hok
  have hsplit := obsNames_count_split obs nd.node
  have hcn : 1 ≤ (obs.nodes.map (fun x => x.node)).count nd.node :=
    List.one_le_count_iff.mpr (List.mem_map_of_mem (fun x => x.node) hmem)
  have hc1 : (obs.nodes.map (fun x => x.node)).count nd.node = 1 := by omega
  have hc0 : (obs.vms.map (fun x => x.name)).count nd.node = 0 := by omega
  have hvnot : nd.node ∉ obs.vms.map (fun x => x.name) := count_eq_zero_notMem hc0
  obtain ⟨_, hN⟩ := notifyNodes_single s.notify_config.nodes obs.nodes s.previous_status nd
    hmem hc1
  obtain ⟨_, hV⟩ := notifyVms_notMem s.notify_config.vms obs.vms
    (notifyNodes s.notify_config.nodes obs.nodes s.previous_status).1 nd.node hvnot
  rw [en]
  simp only [countName_append]
  rw [hN, hV]
  omega

/-- A completed cycle in which the name `n` is observed exactly once, as the
VM `vm`: the node loop does not touch `n`'s cache entry, so `vm`'s step also
evaluates against the pre-cycle cache. -/
theorem cycle_count_vm (s : BotState) (obs : Obs) (vm : VmRec)
    (hok : cycleOk obs = true) (hmem : vm ∈ obs.vms)
    (hone : (obsNames obs).count vm.name = 1) :
    countName (monitorCycle s (some obs)).2 vm.name =
      countName (vmSent s.notify_config.vms s.previous_status vm) vm.name := by
  obtain ⟨h1, h2, e1, e2, ed, ef, ec, ep, en⟩ := monitorCycle_ok_spec s obs hok
  have hsplit := obsNames_count_split obs vm.name
  have hcv : 1 ≤ (obs.vms.map (fun x => x.name)).count vm.name :=
    List.one_le_count_iff.mpr (List.mem_map_of_mem (fun x => x.name) hmem)
  have hc1 : (obs.vms.map (fun x => x.name)).count vm.name = 1 := by omega
  have hc0 : (obs.nodes.map (fun x => x.node)).count vm.name = 0 := by omega
  have hnnot : vm.name ∉ obs.nodes.map (fun x => x.node) := count_eq_zero_notMem hc0
  obtain ⟨hNlk, hN⟩ := notifyNodes_notMem s.notify_config.nodes obs.nodes s.previous_status
    vm.name hnnot
  obtain ⟨_, hV⟩ := notifyVms_single s.notify_config.vms obs.vms
    (notifyNodes s.notify_config.nodes obs.nodes s.previous_status).1 vm hmem hc1
  rw [en]
  simp only [countName_append]
  rw [hN, hV, vmSent_congr s.notify_config.vms
    (notifyNodes s.notify_config.nodes obs.nodes s.previous_status).1 s.previous_status vm hNlk]
  omega

theorem obsStatusOnce_elim {obs : Obs} {n st : String} (h : obsStatusOnce obs n st = true) :
    (obsNames obs).count n = 1 ∧
      ((∃ nd ∈ obs.nodes, nd.node = n ∧ nd.status = st) ∨
       (∃ vm ∈ obs.vms, vm.name = n ∧ vm.status = st)) := by
  simp only [obsStatusOnce, Bool.and_eq_true, Bool.or_eq_true, List.any_eq_true,
    beq_iff_eq] at h
  obtain ⟨h1, h2⟩ := h
  refine ⟨by simpa using h1, ?_⟩
  rcases h2 with h2 | h2
  · obtain ⟨nd, hm, hh⟩ := h2
    exact Or.inl ⟨nd, hm, by simpa using hh⟩
  · obtain ⟨vm, hm, hh⟩ := h2
    exact Or.inr ⟨vm, hm, by simpa using hh⟩

/-- After a completed cycle in which `n` was observed exactly once with
status `st`, the cache holds `st.upper()`. -/
theorem cycle_prev_single (s : BotState) (obs : Obs) (n st : String)
    (hok : cycleOk obs = true) (honce : obsStatusOnce obs n st = true) :
    dlookup n (monitorCycle s (some obs)).1.previous_status = some (strUpper st) := by
  obtain ⟨h1, h2, e1, e2, ed, ef, ec, ep, en⟩ := monitorCycle_ok_spec s obs hok
  obtain ⟨hcnt, hcases⟩ := obsStatusOnce_elim honce
  have hsplit := obsNames_count_split obs n
  rw [ep]
  rcases hcases with ⟨nd, hm, hn, hst⟩ | ⟨vm, hm, hn, hst⟩
  · subst hn
    have hcn : 1 ≤ (obs.nodes.map (fun x => x.node)).count nd.node :=
      List.one_le_count_iff.mpr (List.mem_map_of_mem (fun x => x.node) hm)
    have hc1 : (obs.nodes.map (fun x => x.node)).count nd.node = 1 := by omega
    have hc0 : (obs.vms.map (fun x => x.name)).count nd.node = 0 := by omega
    obtain ⟨hN, _⟩ := notifyNodes_single s.notify_config.nodes obs.nodes s.previous_status nd
      hm hc1
    obtain ⟨hV, _⟩ := notifyVms_notMem s.notify_config.vms obs.vms
      (notifyNodes s.notify_config.nodes obs.nodes s.previous_status).1 nd.node
      (count_eq_zero_notMem hc0)
    rw [hV, hN, hst]
  · subst hn
    have hcv : 1 ≤ (obs.vms.map (fun x => x.name)).count vm.name :=
      List.one_le_count_iff.mpr (List.mem_map_of_mem (fun x => x.name) hm)
    have hc1 : (obs.vms.map (fun x => x.name)).count vm.name = 1 := by omega
    obtain ⟨hV, _⟩ := notifyVms_single s.notify_config.vms obs.vms
      (notifyNodes s.notify_config.nodes obs.nodes s.previous_status).1 vm hm hc1
    rw [hV, hst]

theorem shouldNotify_none (status : String) : shouldNotify none status = false := rfl

theorem shouldNotify_same (status : String) : shouldNotify (some status) status = false := by
  simp [shouldNotify]

theorem shouldNotify_notStopped (prev : Option String) (status : String)
    (h : status ≠ "STOPPED") : shouldNotify prev status = false := by
  cases prev <;> simp [shouldNotify, h]

theorem shouldNotify_fire (p status : String) (h1 : p ≠ "") (h2 : p ≠ status)
    (h3 : status = "STOPPED") : shouldNotify (some p) status = true := by
  subst h3
  simp [shouldNotify, h1, h2]

theorem nodeSent_eq_nil (cfg : List (String × ℕ)) (prev : List (String × String))
    (nd : NodeRec) (h : shouldNotify (dlookup nd.node prev) (strUpper nd.status) = false) :
    nodeSent cfg prev nd = [] := by
  simp [nodeSent, h]

theorem vmSent_eq_nil (cfg : List (String × ℕ)) (prev : List (String × String))
    (vm : VmRec) (h : shouldNotify (dlookup vm.name prev) (strUpper vm.status) = false) :
    vmSent cfg prev vm = [] := by
  simp [vmSent, h]

theorem countName_nodeSent_fire (cfg : List (String × ℕ)) (prev : List (String × String))
    (nd : NodeRec) (p : String) (c : ℕ)
    (hp : dlookup nd.node prev = some p) (hp1 : p ≠ "") (hp2 : p ≠ (strUpper nd.status))
    (hstop : (strUpper nd.status) = "STOPPED")
    (hc : dlookup nd.node cfg = some c) (hc0 : c ≠ 0) :
    countName (nodeSent cfg prev nd) nd.node = 1 := by
  rw [nodeSent, hp, shouldNotify_fire p (strUpper nd.status) hp1 hp2 hstop]
  simp [chanFor, hc, hc0, countName]

theorem countName_vmSent_fire (cfg : List (String × ℕ)) (prev : List (String × String))
    (vm : VmRec) (p : String) (c : ℕ)
    (hp : dlookup vm.name prev = some p) (hp1 : p ≠ "") (hp2 : p ≠ (strUpper vm.status))
    (hstop : (strUpper vm.status) = "STOPPED")
    (hc : dlookup vm.name cfg = some c) (hc0 : c ≠ 0) :
    countName (vmSent cfg prev vm) vm.name = 1 := by
  rw [vmSent, hp, shouldNotify_fire p (strUpper vm.status) hp1 hp2 hstop]
  simp [chanFor, hc, hc0, countName]

/-- C1: on a completed poll cycle, an entity (node or VM) observed exactly
once whose current status is STOPPED, whose cached previous status exists
(is truthy) and differs from STOPPED, and whose name has a registered
(non-zero) destination channel in the notify config, receives exactly one
notification; and an entity observed with an identical status on two
consecutive cycles (the first completing) receives zero notifications in
the second cycle. -/
theorem spec_c1 :
    (∀ (s : BotState) (obs : Obs) (nd : NodeRec) (p : String) (c : ℕ),
        cycleOk obs = true → nd ∈ obs.nodes → (obsNames obs).count nd.node = 1 →
        (strUpper nd.status) = "STOPPED" →
        dlookup nd.node s.previous_status = some p → p ≠ "" → p ≠ "STOPPED" →
        dlookup nd.node s.notify_config.nodes = some c → c ≠ 0 →
        countName (monitorCycle s (some obs)).2 nd.node = 1) ∧
    (∀ (s : BotState) (obs : Obs) (vm : VmRec) (p : String) (c : ℕ),
        cycleOk obs = true → vm ∈ obs.vms → (obsNames obs).count vm.name = 1 →
        (strUpper vm.status) = "STOPPED" →
        dlookup vm.name s.previous_status = some p → p ≠ "" → p ≠ "STOPPED" →
        dlookup vm.name s.notify_config.vms = some c → c ≠ 0 →
        countName (monitorCycle s (some obs)).2 vm.name = 1) ∧
    (∀ (s : BotState) (obs1 obs2 : Obs) (n st : String),
        cycleOk obs1 = true →
        obsStatusOnce obs1 n st = true → obsStatusOnce obs2 n st = true →
        countName (monitorCycle (monitorCycle s (some obs1)).1 (some obs2)).2 n = 0) := by
  refine ⟨?_, ?_, ?_⟩
  · intro s obs nd p c hok hmem hone hstop hp hp1 hp2 hc hc0
    rw [cycle_count_node s obs nd hok hmem hone]
    exact countName_nodeSent_fire s.notify_config.nodes s.previous_status nd p c hp hp1
      (hstop ▸ hp2) hstop hc hc0
  · intro s obs vm p c hok hmem hone hstop hp hp1 hp2 hc hc0
    rw [cycle_count_vm s obs vm hok hmem hone]
    exact countName_vmSent_fire s.notify_config.vms s.previous_status vm p c hp hp1
      (hstop ▸ hp2) hstop hc hc0
  · intro s obs1 obs2 n st hok1 h1 h2
    have hprev : dlookup n (monitorCycle s (some obs1)).1.previous_status = some (strUpper st) :=
      cycle_prev_single s obs1 n st hok1 h1
    rcases hok2 : cycleOk obs2 with _ | _
    · rw [(monitorCycle_err_spec (monitorCycle s (some obs1)).1 obs2 hok2).1]
      simp [countName]
    · obtain ⟨hcnt, hcases⟩ := obsStatusOnce_elim h2
      rcases hcases with ⟨nd, hm, hn, hst⟩ | ⟨vm, hm, hn, hst⟩
      · subst hn
        rw [cycle_count_node (monitorCycle s (some obs1)).1 obs2 nd hok2 hm hcnt,
          nodeSent_eq_nil _ _ nd (by rw [hprev, hst]; exact shouldNotify_same (strUpper st))]
        simp [countName]
      · subst hn
        rw [cycle_count_vm (monitorCycle s (some obs1)).1 obs2 vm hok2 hm hcnt,
          vmSent_eq_nil _ _ vm (by rw [hprev, hst]; exact shouldNotify_same (strUpper st))]
        simp [countName]

theorem notifyNodes_isSome_keep (cfg : List (String × ℕ)) (nodes : List NodeRec)
    (prev : List (String × String)) (n : String) (h : (dlookup n prev).isSome) :
    (dlookup n (notifyNodes cfg nodes prev).1).isSome := by
  induction nodes generalizing prev with
  | nil => simpa [notifyNodes] using h
  | cons nd rest ih =>
    rw [notifyNodes]
    exact ih (dinsert nd.node (strUpper nd.status) prev)
      (isSome_dlookup_dinsert nd.node n (strUpper nd.status) prev h)

theorem notifyVms_isSome_keep (cfg : List (String × ℕ)) (vms : List VmRec)
    (prev : List (String × String)) (n : String) (h : (dlookup n prev).isSome) :
    (dlookup n (notifyVms cfg vms prev).1).isSome := by
  induction vms generalizing prev with
  | nil => simpa [notifyVms] using h
  | cons vm rest ih =>
    rw [notifyVms]
    exact ih (dinsert vm.name (strUpper vm.status) prev)
      (isSome_dlookup_dinsert vm.name n (strUpper vm.status) prev h)

theorem notifyNodes_isSome_mem (cfg : List (String × ℕ)) (nodes : List NodeRec)
    (prev : List (String × String)) (n : String) (h : n ∈ nodes.map (fun x => x.node)) :
    (dlookup n (notifyNodes cfg nodes prev).1).isSome := by
  induction nodes generalizing prev with
  | nil => simp at h
  | cons nd rest ih =>
    rw [notifyNodes]
    by_cases hn : nd.node = n
    · exact notifyNodes_isSome_keep cfg rest (dinsert nd.node (strUpper nd.status) prev) n
        (by rw [hn, dlookup_dinsert_self]; rfl)
    · have : n ∈ rest.map (fun x => x.node) := by
        rw [List.map_cons] at h
        rcases List.mem_cons.mp h with h1 | h1
        · exact absurd h1.symm hn
        · exact h1
      exact ih (dinsert nd.node (strUpper nd.status) prev) this

theorem notifyVms_isSome_mem (cfg : List (String × ℕ)) (vms : List VmRec)
    (prev : List (String × String)) (n : String) (h : n ∈ vms.map (fun x => x.name)) :
    (dlookup n (notifyVms cfg vms prev).1).isSome := by
  induction vms generalizing prev with
  | nil => simp at h
  | cons vm rest ih =>
    rw [notifyVms]
    by_cases hn : vm.name = n
    · exact notifyVms_isSome_keep cfg rest (dinsert vm.name (strUpper vm.status) prev) n
        (by rw [hn, dlookup_dinsert_self]; rfl)
    · have : n ∈ rest.map (fun x => x.name) := by
        rw [List.map_cons] at h
        rcases List.mem_cons.mp h with h1 | h1
        · exact absurd h1.symm hn
        · exact h1
      exact ih (dinsert vm.name (strUpper vm.status) prev) this

theorem obsNames_mem_cases {obs : Obs} {n : String} (h : n ∈ obsNames obs) :
    n ∈ obs.nodes.map (fun x => x.node) ∨ n ∈ obs.vms.map (fun x => x.name) := by
  simpa [obsNames] using h

/-- C3: an entity with no cached previous status gets zero notifications in
a cycle (regardless of its status), and a completed cycle caches the
observed status of every observed entity: the unique observed status is
cached verbatim (uppercased), and every observed name has a cache entry
afterwards. -/
theorem spec_c3 :
    (∀ (s : BotState) (obs : Obs) (n : String),
        (obsNames obs).count n ≤ 1 → dlookup n s.previous_status = none →
        countName (monitorCycle s (some obs)).2 n = 0) ∧
    (∀ (s : BotState) (obs : Obs) (n st : String),
        cycleOk obs = true → obsStatusOnce obs n st = true →
        dlookup n (monitorCycle s (some obs)).1.previous_status = some (strUpper st)) ∧
    (∀ (s : BotState) (obs : Obs) (n : String),
        cycleOk obs = true → n ∈ obsNames obs →
        (dlookup n (monitorCycle s (some obs)).1.previous_status).isSome) := by
  refine ⟨?_, ?_, ?_⟩
  · intro s obs n hle hnone
    rcases hok : cycleOk obs with _ | _
    · rw [(monitorCycle_err_spec s obs hok).1]
      simp [countName]
    · by_cases hm : n ∈ obsNames obs
      · have hone : (obsNames obs).count n = 1 :=
          le_antisymm hle (List.one_le_count_iff.mpr hm)
        rcases obsNames_mem_cases hm with hnd | hvm
        · obtain ⟨nd, hmem, hn⟩ := List.mem_map.mp hnd
          subst hn
          rw [cycle_count_node s obs nd hok hmem hone,
            nodeSent_eq_nil _ _ nd (by rw [hnone]; rfl)]
          simp [countName]
        · obtain ⟨vm, hmem, hn⟩ := List.mem_map.mp hvm
          subst hn
          rw [cycle_count_vm s obs vm hok hmem hone,
            vmSent_eq_nil _ _ vm (by rw [hnone]; rfl)]
          simp [countName]
      · obtain ⟨h1, h2, e1, e2, ed, ef, ec, ep, en⟩ := monitorCycle_ok_spec s obs hok
        have hsplit : n ∉ obs.nodes.map (fun x => x.node) ∧ n ∉ obs.vms.map (fun x => x.name) := by
          constructor <;> intro hc <;> exact hm (by simp [obsNames, hc])
        obtain ⟨_, hN⟩ := notifyNodes_notMem s.notify_config.nodes obs.nodes
          s.previous_status n hsplit.1
        obtain ⟨_, hV⟩ := notifyVms_notMem s.notify_config.vms obs.vms
          (notifyNodes s.notify_config.nodes obs.nodes s.previous_status).1 n hsplit.2
        rw [en]
        simp only [countName_append]
        rw [hN, hV]
  · intro s obs n st hok honce
    exact cycle_prev_single s obs n st hok honce
  · intro s obs n hok hm
    obtain ⟨h1, h2, e1, e2, ed, ef, ec, ep, en⟩ := monitorCycle_ok_spec s obs hok
    rw [ep]
    rcases obsNames_mem_cases hm with hnd | hvm
    · exact notifyVms_isSome_keep s.notify_config.vms obs.vms _ n
        (notifyNodes_isSome_mem s.notify_config.nodes obs.nodes s.previous_status n hnd)
    · exact notifyVms_isSome_mem s.notify_config.vms obs.vms _ n hvm

/-- C4: an entity whose cached previous status is STOPPED and whose current
observed status is RUNNING (a recovery) gets zero notifications in that
cycle. -/
theorem spec_c4 (s : BotState) (obs : Obs) (n st : String)
    (hprev : dlookup n s.previous_status = some "STOPPED")
    (honce : obsStatusOnce obs n st = true) (hrun : (strUpper st) = "RUNNING") :
    countName (monitorCycle s (some obs)).2 n = 0 := by
  rcases hok : cycleOk obs with _ | _
  · rw [(monitorCycle_err_spec s obs hok).1]
    simp [countName]
  · obtain ⟨hcnt, hcases⟩ := obsStatusOnce_elim honce
    rcases hcases with ⟨nd, hm, hn, hst⟩ | ⟨vm, hm, hn, hst⟩
    · subst hn
      have hns : (strUpper nd.status) ≠ "STOPPED" := by
        rw [hst, hrun]
        decide
      rw [cycle_count_node s obs nd hok hm hcnt,
        nodeSent_eq_nil _ _ nd (shouldNotify_notStopped _ _ hns)]
      simp [countName]
    · subst hn
      have hns : (strUpper vm.status) ≠ "STOPPED" := by
        rw [hst, hrun]
        decide
      rw [cycle_count_vm s obs vm hok hm hcnt,
        vmSent_eq_nil _ _ vm (shouldNotify_notStopped _ _ hns)]
      simp [countName]

theorem cycleOk_eq_false_node {obs : Obs} {nd : NodeRec} (hm : nd ∈ obs.nodes)
    (h0 : nd.maxmem = 0) : cycleOk obs = false := by
  rcases h : cycleOk obs with _ | _
  · rfl
  · exact absurd h0 (cycleOk_nodes h nd hm)

theorem cycleOk_eq_false_vm {obs : Obs} {vm : VmRec} (hm : vm ∈ obs.vms)
    (h0 : vm.maxmem = 0) : cycleOk obs = false := by
  rcases h : cycleOk obs with _ | _
  · rfl
  · exact absurd h0 (cycleOk_vms h vm hm)

/-- C2 counterexample: a node observed with `maxmem = 0` does NOT get a
history entry with memory fraction 0 — the division `mem/maxmem` fails
(`ZeroDivisionError`), so no entry at all is written for it. -/
theorem spec_c2_counterexample :
    memFrac 5 0 = none ∧
    histLookup "pve1"
      (monitorCycle ⟨[], ⟨[], []⟩, [], []⟩
        (some ⟨0, [⟨"pve1", "ONLINE", 0, 5, 0⟩], []⟩)).1.history_data = [] := by
  exact ⟨rfl, rfl⟩

/-- C2 (amended): for an entity observed with memory-max 0, the memory
fraction computation is a division failure (not 0); the exception aborts
the cycle before it completes: the failing entity gets no history entry,
the history file is not rewritten, no notification is sent, and the status
cache is left untouched.  (The error is caught by the cycle's handler, so
the loop itself survives.) -/
theorem spec_c2_amended :
    (∀ (s : BotState) (obs : Obs) (nd : NodeRec), nd ∈ obs.nodes → nd.maxmem = 0 →
        memFrac nd.mem nd.maxmem = none ∧
        (monitorCycle s (some obs)).2 = [] ∧
        (monitorCycle s (some obs)).1.previous_status = s.previous_status ∧
        (monitorCycle s (some obs)).1.history_file = s.history_file) ∧
    (∀ (s : BotState) (obs : Obs) (vm : VmRec), vm ∈ obs.vms → vm.maxmem = 0 →
        memFrac vm.mem vm.maxmem = none ∧
        (monitorCycle s (some obs)).2 = [] ∧
        (monitorCycle s (some obs)).1.previous_status = s.previous_status ∧
        (monitorCycle s (some obs)).1.history_file = s.history_file) := by
  constructor
  · intro s obs nd hm h0
    obtain ⟨e1, e2, e3, e4⟩ := monitorCycle_err_spec s obs (cycleOk_eq_false_node hm h0)
    exact ⟨by rw [h0]; exact memFrac_zero nd.mem, e1, e2, e3⟩
  · intro s obs vm hm h0
    obtain ⟨e1, e2, e3, e4⟩ := monitorCycle_err_spec s obs (cycleOk_eq_false_vm hm h0)
    exact ⟨by rw [h0]; exact memFrac_zero vm.mem, e1, e2, e3⟩

/-- C6: errors in a poll cycle are not fatal and are not retried within the
cycle.  A fetch error leaves the whole state unchanged and sends nothing,
and the rest of the run is exactly as if the failed cycle had not happened;
a processing error (`ZeroDivisionError` in the history loops) sends no
notification and leaves the status cache, the history file and the notify
config untouched — the loop simply proceeds to the next cycle. -/
theorem spec_c6 :
    (∀ s : BotState, monitorCycle s none = (s, [])) ∧
    (∀ (s : BotState) (l : List (Option Obs)), runCycles s (none :: l) = runCycles s l) ∧
    (∀ (s : BotState) (obs : Obs), cycleOk obs = false →
        (monitorCycle s (some obs)).2 = [] ∧
        (monitorCycle s (some obs)).1.previous_status = s.previous_status ∧
        (monitorCycle s (some obs)).1.history_file = s.history_file ∧
        (monitorCycle s (some obs)).1.notify_config = s.notify_config) := by
  refine ⟨fun s => rfl, ?_, ?_⟩
  · intro s l
    simp [runCycles, monitorCycle]
  · intro s obs hbad
    exact monitorCycle_err_spec s obs hbad

theorem filter_nodes_single {nodes : List NodeRec} {nd : NodeRec} (hmem : nd ∈ nodes)
    (hc : (nodes.map (fun x => x.node)).count nd.node = 1) :
    nodes.filter (fun x => x.node == nd.node) = [nd] := by
  induction nodes with
  | nil => simp at hmem
  | cons a rest ih =>
    by_cases ha : a.node = nd.node
    · have hz : (rest.map (fun x => x.node)).count nd.node = 0 := by
        simpa [List.count_cons, ha] using hc
      have hnotin : nd.node ∉ rest.map (fun x => x.node) := count_eq_zero_notMem hz
      have hand : nd = a := by
        rcases List.mem_cons.mp hmem with h1 | h1
        · exact h1
        · exact absurd (List.mem_map_of_mem (fun x => x.node) h1) hnotin
      subst hand
      have hrest : rest.filter (fun x => x.node == nd.node) = [] := by
        refine List.filter_eq_nil_iff.mpr ?_
        intro x hx
        simp only [beq_iff_eq]
        intro hxe
        exact hnotin (hxe ▸ List.mem_map_of_mem (fun x => x.node) hx)
      simp [List.filter_cons, ha, hrest]
    · have hmem' : nd ∈ rest := by
        rcases List.mem_cons.mp hmem with h1 | h1
        · exact absurd (congrArg NodeRec.node h1).symm ha
        · exact h1
      have hc' : (rest.map (fun x => x.node)).count nd.node = 1 := by
        simpa [List.count_cons, ha] using hc
      simpa [List.filter_cons, ha] using ih hmem' hc'

theorem filter_vms_single {vms : List VmRec} {vm : VmRec} (hmem : vm ∈ vms)
    (hc : (vms.map (fun x => x.name)).count vm.name = 1) :
    vms.filter (fun x => x.name == vm.name) = [vm] := by
  induction vms with
  | nil => simp at hmem
  | cons a rest ih =>
    by_cases ha : a.name = vm.name
    · have hz : (rest.map (fun x => x.name)).count vm.name = 0 := by
        simpa [List.count_cons, ha] using hc
      have hnotin : vm.name ∉ rest.map (fun x => x.name) := count_eq_zero_notMem hz
      have hand : vm = a := by
        rcases List.mem_cons.mp hmem with h1 | h1
        · exact h1
        · exact absurd (List.mem_map_of_mem (fun x => x.name) h1) hnotin
      subst hand
      have hrest : rest.filter (fun x => x.name == vm.name) = [] := by
        refine List.filter_eq_nil_iff.mpr ?_
        intro x hx
        simp only [beq_iff_eq]
        intro hxe
        exact hnotin (hxe ▸ List.mem_map_of_mem (fun x => x.name) hx)
      simp [List.filter_cons, ha, hrest]
    · have hmem' : vm ∈ rest := by
        rcases List.mem_cons.mp hmem with h1 | h1
        · exact absurd (congrArg VmRec.name h1).symm ha
        · exact h1
      have hc' : (rest.map (fun x => x.name)).count vm.name = 1 := by
        simpa [List.count_cons, ha] using hc
      simpa [List.filter_cons, ha] using ih hmem' hc'

/-- C9: `previous_status` and `history_data` are shared between nodes and
VMs and keyed by name alone.  When a node and a VM carry the same name in a
completed cycle, the VM (processed last) wins the single cache slot, and the
one shared history sequence receives both entries, the node's first. -/
theorem spec_c9 (s : BotState) (obs : Obs) (nd : NodeRec) (vm : VmRec)
    (hok : cycleOk obs = true) (hnd : nd ∈ obs.nodes) (hvm : vm ∈ obs.vms)
    (hname : vm.name = nd.node)
    (hc1 : (obs.nodes.map (fun x => x.node)).count nd.node = 1)
    (hc2 : (obs.vms.map (fun x => x.name)).count nd.node = 1) :
    dlookup nd.node (monitorCycle s (some obs)).1.previous_status =
      some (strUpper vm.status) ∧
    histLookup nd.node (monitorCycle s (some obs)).1.history_data =
      histLookup nd.node s.history_data ++
        [⟨obs.time, nd.cpu, (nd.mem : ℚ) / (nd.maxmem : ℚ)⟩,
         ⟨obs.time, vm.cpu, (vm.mem : ℚ) / (vm.maxmem : ℚ)⟩] := by
  obtain ⟨h1, h2, e1, e2, ed, ef, ec, ep, en⟩ := monitorCycle_ok_spec s obs hok
  constructor
  · rw [ep, ← hname]
    exact (notifyVms_single s.notify_config.vms obs.vms
      (notifyNodes s.notify_config.nodes obs.nodes s.previous_status).1 vm hvm
      (hname ▸ hc2)).1
  · rw [ed]
    have hN := histNodes_lookup obs.time obs.nodes s.history_data h1 nd.node e1
    have hV := histVms_lookup obs.time obs.vms h1 h2 nd.node e2
    rw [filter_nodes_single hnd hc1] at hN
    have hfilter : obs.vms.filter (fun x => x.name == nd.node) = [vm] := by
      rw [← hname]
      exact filter_vms_single hvm (hname ▸ hc2)
    rw [hfilter] at hV
    rw [hV, hN]
    simp

theorem map_const_time {α : Type} (l : List α) (t : ℕ) :
    l.map (fun _ => t) = List.replicate l.length t := by
  induction l with
  | nil => rfl
  | cons a rest ih => simp [List.replicate, ih]

theorem count_map_node (nodes : List NodeRec) (n : String) :
    (nodes.map (fun x => x.node)).count n = (nodes.filter (fun x => x.node == n)).length := by
  induction nodes with
  | nil => rfl
  | cons a rest ih =>
    by_cases h : a.node = n
    · simp [List.count_cons, List.filter_cons, h, ih]
    · simp [List.count_cons, List.filter_cons, h, ih]

theorem count_map_vm (vms : List VmRec) (n : String) :
    (vms.map (fun x => x.name)).count n = (vms.filter (fun x => x.name == n)).length := by
  induction vms with
  | nil => rfl
  | cons a rest ih =>
    by_cases h : a.name = n
    · simp [List.count_cons, List.filter_cons, h, ih]
    · simp [List.count_cons, List.filter_cons, h, ih]

/-- A completed cycle appends, for the name `n`, one history entry stamped
with the cycle's timestamp per observation of `n` in the cycle. -/
theorem cycle_hist_times (s : BotState) (obs : Obs) (n : String)
    (hok : cycleOk obs = true) :
    (histLookup n (monitorCycle s (some obs)).1.history_data).map (fun e => e.time) =
      (histLookup n s.history_data).map (fun e => e.time) ++
        List.replicate ((obsNames obs).count n) obs.time := by
  obtain ⟨h1, h2, e1, e2, ed, ef, ec, ep, en⟩ := monitorCycle_ok_spec s obs hok
  rw [ed, histVms_lookup obs.time obs.vms h1 h2 n e2,
    histNodes_lookup obs.time obs.nodes s.history_data h1 n e1,
    obsNames_count_split obs n, count_map_node, count_map_vm, List.replicate_add]
  simp [List.map_map, Function.comp_def, map_const_time, List.append_assoc]

/-- Across a run, the history timestamps recorded for `n` are the
timestamps of the successful cycles that observed `n`, in run order
(assuming every cycle completes and no cycle observes a name twice). -/
theorem runCycles_hist_times (l : List (Option Obs)) (s : BotState) (n : String)
    (hok : ∀ obs : Obs, some obs ∈ l → cycleOk obs = true)
    (hnd : ∀ obs : Obs, some obs ∈ l → (obsNames obs).Nodup) :
    (histLookup n (runCycles s l).1.history_data).map (fun e => e.time) =
      (histLookup n s.history_data).map (fun e => e.time) ++
        ((l.filterMap id).filter (fun obs => (obsNames obs).contains n)).map
          (fun obs => obs.time) := by
  induction l generalizing s with
  | nil => simp [runCycles]
  | cons f rest ih =>
    rcases f with _ | obs
    · have hstep : (runCycles s (none :: rest)).1 = (runCycles s rest).1 := by
        simp [runCycles, monitorCycle]
      rw [hstep, ih s (fun o ho => hok o (List.mem_cons_of_mem _ ho))
        (fun o ho => hnd o (List.mem_cons_of_mem _ ho))]
      simp
    · have hok1 : cycleOk obs = true := hok obs (List.mem_cons_self _ _)
      have hnd1 : (obsNames obs).Nodup := hnd obs (List.mem_cons_self _ _)
      have hstep : (runCycles s (some obs :: rest)).1 =
          (runCycles (monitorCycle s (some obs)).1 rest).1 := by
        simp [runCycles]
      rw [hstep, ih (monitorCycle s (some obs)).1
        (fun o ho => hok o (List.mem_cons_of_mem _ ho))
        (fun o ho => hnd o (List.mem_cons_of_mem _ ho)),
        cycle_hist_times s obs n hok1]
      by_cases hm : n ∈ obsNames obs
      · have hc : (obsNames obs).count n = 1 := List.count_eq_one_of_mem hnd1 hm
        have hcontains : (obsNames obs).contains n = true := by
          simpa [List.contains] using hm
        simp [hc, hcontains, hm, List.filterMap_cons, List.filter_cons, List.append_assoc]
      · have hc : (obsNames obs).count n = 0 := by
          simpa [List.count_eq_zero] using hm
        have hcontains : (obsNames obs).contains n = false := by
          simpa [List.contains] using hm
        simp [hc, hcontains, hm, List.filterMap_cons, List.filter_cons]

/-- C5: starting from a fresh process, for every entity name the history
sequence has non-decreasing timestamps (given that the poll timestamps are
non-decreasing), and its length equals the number of completed poll cycles
that observed that entity — one entry per observing cycle, none otherwise. -/
theorem spec_c5 (cfg : NotifyConfig) (l : List (Option Obs)) (n : String)
    (hok : ∀ obs ∈ l.filterMap id, cycleOk obs = true)
    (hnd : ∀ obs ∈ l.filterMap id, (obsNames obs).Nodup)
    (hmono : ((l.filterMap id).map (fun obs => obs.time)).Pairwise (· ≤ ·)) :
    ((histLookup n (runCycles (initState cfg) l).1.history_data).map
        (fun e => e.time)).Pairwise (· ≤ ·) ∧
      (histLookup n (runCycles (initState cfg) l).1.history_data).length =
        (l.filterMap id).countP (fun obs => (obsNames obs).contains n) := by
  have hok' : ∀ o : Obs, some o ∈ l → cycleOk o = true := fun o ho =>
    hok o (List.mem_filterMap.mpr ⟨some o, ho, rfl⟩)
  have hnd' : ∀ o : Obs, some o ∈ l → (obsNames o).Nodup := fun o ho =>
    hnd o (List.mem_filterMap.mpr ⟨some o, ho, rfl⟩)
  have h := runCycles_hist_times l (initState cfg) n hok' hnd'
  have hinit : histLookup n (initState cfg).history_data = [] := rfl
  rw [hinit] at h
  simp only [List.map_nil, List.nil_append] at h
  have hsub : (((l.filterMap id).filter
        (fun obs => (obsNames obs).contains n)).map (fun obs => obs.time)).Sublist
      ((l.filterMap id).map (fun obs => obs.time)) :=
    List.Sublist.map (fun obs : Obs => obs.time)
      (List.filter_sublist (l.filterMap id))
  constructor
  · rw [h]
    exact hmono.sublist hsub
  · have hlen : (histLookup n (runCycles (initState cfg) l).1.history_data).length =
        ((histLookup n (runCycles (initState cfg) l).1.history_data).map
          (fun e => e.time)).length := (List.length_map _ _).symm
    rw [hlen, h, List.length_map, ← List.countP_eq_length_filter]

/-- Python `content.startswith(p)`. -/
def strStarts (content p : String) : Bool :=
  p.data.isPrefixOf content.data

/-- Python `content.split(" ", 1)[1]` for a `content` that starts with the
command word `p` (ending in the single space `split` cuts at): everything
after that first space. -/
def cmdArg (content p : String) : String :=
  String.mk (content.data.drop p.data.length)

/-- A run of the config-command branches of `on_message`: the resulting
`notify_config`, every `save_json(CONFIG_FILE, ...)` performed (in order),
and every reply sent to the channel. -/
structure CmdResult where
  config : NotifyConfig
  writes : List NotifyConfig
  replies : List String
deriving DecidableEq

def nodeLine (p : String × ℕ) : String :=
  "Node " ++ p.1 ++ ": <#" ++ toString p.2 ++ ">"

def vmLine (p : String × ℕ) : String :=
  "VM " ++ p.1 ++ ": <#" ++ toString p.2 ++ ">"

/-- The lines built by the `!listnotify` branch (source lines 305-311). -/
def listnotifyLines (cfg : NotifyConfig) : List String :=
  "📌 通知設定一覧" :: (cfg.nodes.map nodeLine ++ cfg.vms.map vmLine)

/-- The notification-config branches of `on_message` (source lines
279-311), reached when none of the earlier literal prefixes (`!help`,
`!status`, `!status-detail`, the emergency command) matched — none of them
does on these contents.  `channelId` is `message.channel.id`. -/
def handleNotifyMsg (cfg : NotifyConfig) (content : String) (channelId : ℕ) : CmdResult :=
  if strStarts content "!notify_node " then
    let n := cmdArg content "!notify_node "
    let cfg2 : NotifyConfig := ⟨dinsert n channelId cfg.nodes, cfg.vms⟩
    ⟨cfg2, [cfg2], ["✅ ノード `" ++ n ++ "` 通知先登録しました。"]⟩
  else if strStarts content "!unnotify_node " then
    let n := cmdArg content "!unnotify_node "
    if (dlookup n cfg.nodes).isSome then
      let cfg2 : NotifyConfig := ⟨derase n cfg.nodes, cfg.vms⟩
      ⟨cfg2, [cfg2], ["✅ ノード `" ++ n ++ "` 通知解除しました。"]⟩
    else ⟨cfg, [], []⟩
  else if strStarts content "!notify_vm " then
    let n := cmdArg content "!notify_vm "
    let cfg2 : NotifyConfig := ⟨cfg.nodes, dinsert n channelId cfg.vms⟩
    ⟨cfg2, [cfg2], ["✅ VM `" ++ n ++ "` 通知先登録しました。"]⟩
  else if strStarts content "!unnotify_vm " then
    let n := cmdArg content "!unnotify_vm "
    if (dlookup n cfg.vms).isSome then
      let cfg2 : NotifyConfig := ⟨cfg.nodes, derase n cfg.vms⟩
      ⟨cfg2, [cfg2], ["✅ VM `" ++ n ++ "` 通知解除しました。"]⟩
    else ⟨cfg, [], []⟩
  else if content == "!listnotify" then
    ⟨cfg, [], [String.intercalate "\n" (listnotifyLines cfg)]⟩
  else ⟨cfg, [], []⟩

theorem strStarts_cat (p r : String) : strStarts (p ++ r) p = true := by
  have hdata : (p ++ r).data = p.data ++ r.data := rfl
  rw [strStarts, hdata]
  exact List.isPrefixOf_iff_prefix.mpr (List.prefix_append p.data r.data)

theorem cmdArg_cat (p r : String) : cmdArg (p ++ r) p = r := by
  have hdata : (p ++ r).data = p.data ++ r.data := rfl
  rw [cmdArg, hdata, List.drop_left]

theorem strStarts_un_no (r : String) :
    strStarts ("!unnotify_node " ++ r) "!notify_node " = false := rfl

theorem strStarts_nv_no (r : String) :
    strStarts ("!notify_vm " ++ r) "!notify_node " = false := rfl

theorem strStarts_nv_un (r : String) :
    strStarts ("!notify_vm " ++ r) "!unnotify_node " = false := rfl

theorem strStarts_uv_no (r : String) :
    strStarts ("!unnotify_vm " ++ r) "!notify_node " = false := rfl

theorem strStarts_uv_un (r : String) :
    strStarts ("!unnotify_vm " ++ r) "!unnotify_node " = false := rfl

theorem strStarts_uv_nv (r : String) :
    strStarts ("!unnotify_vm " ++ r) "!notify_vm " = false := rfl

/-- C7: `!notify_node name` followed by `!unnotify_node name` leaves the
node mapping without a binding for `name`; the `!listnotify` reply is built
from exactly the currently-registered entries — every registered node/VM
entry produces its line, and every line after the header comes from a
registered entry. -/
theorem spec_c7 :
    (∀ (cfg : NotifyConfig) (n : String) (c1 c2 : ℕ),
        dlookup n ((handleNotifyMsg
            ((handleNotifyMsg cfg ("!notify_node " ++ n) c1).config)
            ("!unnotify_node " ++ n) c2).config).nodes = none) ∧
    (∀ (cfg : NotifyConfig) (c : ℕ),
        (handleNotifyMsg cfg "!listnotify" c).replies =
          [String.intercalate "\n" (listnotifyLines cfg)]) ∧
    (∀ cfg : NotifyConfig,
        (∀ p ∈ cfg.nodes, nodeLine p ∈ listnotifyLines cfg) ∧
        (∀ p ∈ cfg.vms, vmLine p ∈ listnotifyLines cfg) ∧
        (∀ line ∈ (listnotifyLines cfg).tail,
          (∃ p ∈ cfg.nodes, line = nodeLine p) ∨ (∃ p ∈ cfg.vms, line = vmLine p))) := by
  refine ⟨?_, ?_, ?_⟩
  · intro cfg n c1 c2
    simp [handleNotifyMsg, strStarts_cat, cmdArg_cat, strStarts_un_no,
      dlookup_dinsert_self, dlookup_derase_self]
  · intro cfg c
    rfl
  · intro cfg
    refine ⟨?_, ?_, ?_⟩
    · intro p hp
      exact List.mem_cons_of_mem _ (List.mem_append_left _ (List.mem_map_of_mem nodeLine hp))
    · intro p hp
      exact List.mem_cons_of_mem _ (List.mem_append_right _ (List.mem_map_of_mem vmLine hp))
    · intro line hline
      simp only [listnotifyLines, List.tail_cons, List.mem_append, List.mem_map] at hline
      rcases hline with ⟨p, hp, he⟩ | ⟨p, hp, he⟩
      · exact Or.inl ⟨p, hp, he.symm⟩
      · exact Or.inr ⟨p, hp, he.symm⟩

/-- C8: `load_json` returns the file's parsed content when the file exists
and the default when it is absent; `save_json` overwrites the value stored
at the given path wholesale (and touches no other path), so loading after
saving returns the saved structure. -/
theorem spec_c8 {α : Type} (fs : List (String × α)) (p : String) (d0 d : α) :
    (∀ d', dlookup p fs = some d' → load_json fs p d0 = d') ∧
    (dlookup p fs = none → load_json fs p d0 = d0) ∧
    dlookup p (save_json fs p d) = some d ∧
    (∀ q, q ≠ p → dlookup q (save_json fs p d) = dlookup q fs) ∧
    load_json (save_json fs p d) p d0 = d := by
  refine ⟨?_, ?_, ?_, ?_, ?_⟩
  · intro d' h
    rw [load_json, h]
  · intro h
    rw [load_json, h]
  · exact dlookup_dinsert_self p d fs
  · intro q hq
    exact dlookup_dinsert_ne p q d fs (fun hh => hq hh.symm)
  · rw [load_json, save_json, dlookup_dinsert_self]

/-- C10: an `!unnotify_node` / `!unnotify_vm` for a name that is not
registered leaves the notify config unchanged, performs no config-file
write and sends no reply; conversely these commands write the config file
only when the name was registered (a mutation actually occurred). -/
theorem spec_c10 :
    (∀ (cfg : NotifyConfig) (n : String) (c : ℕ), dlookup n cfg.nodes = none →
        handleNotifyMsg cfg ("!unnotify_node " ++ n) c = ⟨cfg, [], []⟩) ∧
    (∀ (cfg : NotifyConfig) (n : String) (c : ℕ), dlookup n cfg.vms = none →
        handleNotifyMsg cfg ("!unnotify_vm " ++ n) c = ⟨cfg, [], []⟩) ∧
    (∀ (cfg : NotifyConfig) (n : String) (c : ℕ),
        (handleNotifyMsg cfg ("!unnotify_node " ++ n) c).writes ≠ [] →
        (dlookup n cfg.nodes).isSome) ∧
    (∀ (cfg : NotifyConfig) (n : String) (c : ℕ),
        (handleNotifyMsg cfg ("!unnotify_vm " ++ n) c).writes ≠ [] →
        (dlookup n cfg.vms).isSome) := by
  refine ⟨?_, ?_, ?_, ?_⟩
  · intro cfg n c h
    simp [handleNotifyMsg, strStarts_cat, cmdArg_cat, strStarts_un_no, h]
  · intro cfg n c h
    simp [handleNotifyMsg, strStarts_cat, cmdArg_cat, strStarts_uv_no, strStarts_uv_un,
      strStarts_uv_nv, h]
  · intro cfg n c h
    by_contra hnone
    rw [Option.not_isSome_iff_eq_none] at hnone
    apply h
    simp [handleNotifyMsg, strStarts_cat, cmdArg_cat, strStarts_un_no, hnone]
  · intro cfg n c h
    by_contra hnone
    rw [Option.not_isSome_iff_eq_none] at hnone
    apply h
    simp [handleNotifyMsg, strStarts_cat, cmdArg_cat, strStarts_uv_no, strStarts_uv_un,
      strStarts_uv_nv, hnone]

/-- A bot state with empty caches, empty config and empty history. -/
def emptyState : BotState := ⟨[], ⟨[], []⟩, [], []⟩

def w1_s : BotState := ⟨[("pve1", "RUNNING")], ⟨[("pve1", 42)], []⟩, [], []⟩

def w1_nd : NodeRec := ⟨"pve1", "STOPPED", 0, 1, 2⟩

def w1_obs : Obs := ⟨1, [w1_nd], []⟩

/-- Witness for C1 at a concrete transition: node `pve1` cached RUNNING,
now STOPPED, channel 42 registered — exactly one notification. -/
theorem spec_c1_witness :
    (cycleOk w1_obs = true ∧ w1_nd ∈ w1_obs.nodes ∧
      (obsNames w1_obs).count w1_nd.node = 1 ∧ (strUpper w1_nd.status) = "STOPPED" ∧
      dlookup w1_nd.node w1_s.previous_status = some "RUNNING" ∧
      dlookup w1_nd.node w1_s.notify_config.nodes = some 42) ∧
    countName (monitorCycle w1_s (some w1_obs)).2 w1_nd.node = 1 :=
  ⟨⟨by decide, by decide, by decide, by decide, by decide, by decide⟩,
    spec_c1.1 w1_s w1_obs w1_nd "RUNNING" 42 (by decide) (by decide) (by decide) (by decide)
      (by decide) (by decide) (by decide) (by decide) (by decide)⟩

def w2_obs : Obs := ⟨0, [⟨"pve1", "ONLINE", 0, 5, 0⟩], []⟩

/-- Witness for the amended C2 at a node reporting `maxmem = 0`. -/
theorem spec_c2_amended_witness :
    ((⟨"pve1", "ONLINE", 0, 5, 0⟩ : NodeRec) ∈ w2_obs.nodes ∧
      (⟨"pve1", "ONLINE", 0, 5, 0⟩ : NodeRec).maxmem = 0) ∧
    (memFrac 5 0 = none ∧
      (monitorCycle emptyState (some w2_obs)).2 = [] ∧
      (monitorCycle emptyState (some w2_obs)).1.previous_status = emptyState.previous_status ∧
      (monitorCycle emptyState (some w2_obs)).1.history_file = emptyState.history_file) :=
  ⟨⟨by decide, by decide⟩,
    spec_c2_amended.1 emptyState w2_obs ⟨"pve1", "ONLINE", 0, 5, 0⟩ (by decide) (by decide)⟩

def w3_obs : Obs := ⟨0, [⟨"pve1", "STOPPED", 0, 1, 2⟩], []⟩

/-- Witness for C3: first observation of `pve1` (empty cache), even with
status STOPPED, sends nothing. -/
theorem spec_c3_witness :
    ((obsNames w3_obs).count "pve1" ≤ 1 ∧
      dlookup "pve1" emptyState.previous_status = none) ∧
    countName (monitorCycle emptyState (some w3_obs)).2 "pve1" = 0 :=
  ⟨⟨by decide, by decide⟩,
    (spec_c3.1 emptyState w3_obs "pve1" (by decide) (by decide))⟩

def w4_s : BotState := ⟨[("vm1", "STOPPED")], ⟨[], [("vm1", 9)]⟩, [], []⟩

def w4_obs : Obs := ⟨0, [], [⟨"vm1", 100, "running", 0, 1, 2⟩]⟩

/-- Witness for C4: VM `vm1` cached STOPPED, now running (recovery) —
zero notifications even though a channel is registered. -/
theorem spec_c4_witness :
    (dlookup "vm1" w4_s.previous_status = some "STOPPED" ∧
      obsStatusOnce w4_obs "vm1" "running" = true ∧
      strUpper "running" = "RUNNING") ∧
    countName (monitorCycle w4_s (some w4_obs)).2 "vm1" = 0 :=
  ⟨⟨by decide, by decide, by decide⟩,
    spec_c4 w4_s w4_obs "vm1" "running" (by decide) (by decide) (by decide)⟩

def w5_obsA : Obs := ⟨1, [⟨"pve1", "ONLINE", 0, 1, 2⟩], []⟩

def w5_obsB : Obs := ⟨2, [⟨"pve1", "ONLINE", 0, 1, 2⟩], []⟩

def w5_l : List (Option Obs) := [some w5_obsA, none, some w5_obsB]

/-- Witness for C5: two successful cycles observing `pve1` (with a failed
fetch between them) yield a two-entry history with ordered timestamps. -/
theorem spec_c5_witness :
    ((∀ obs ∈ w5_l.filterMap id, cycleOk obs = true) ∧
      (∀ obs ∈ w5_l.filterMap id, (obsNames obs).Nodup) ∧
      ((w5_l.filterMap id).map (fun obs => obs.time)).Pairwise (· ≤ ·)) ∧
    (((histLookup "pve1" (runCycles (initState ⟨[], []⟩) w5_l).1.history_data).map
        (fun e => e.time)).Pairwise (· ≤ ·) ∧
      (histLookup "pve1" (runCycles (initState ⟨[], []⟩) w5_l).1.history_data).length =
        (w5_l.filterMap id).countP (fun obs => (obsNames obs).contains "pve1")) :=
  ⟨⟨by decide, by decide, by decide⟩,
    spec_c5 ⟨[], []⟩ w5_l "pve1" (by decide) (by decide) (by decide)⟩

def w6_obs : Obs := ⟨0, [], [⟨"vm1", 100, "running", 0, 3, 0⟩]⟩

/-- Witness for C6 at a cycle whose processing fails (`maxmem = 0`): no
notification, cache/file/config untouched. -/
theorem spec_c6_witness :
    cycleOk w6_obs = false ∧
    ((monitorCycle emptyState (some w6_obs)).2 = [] ∧
      (monitorCycle emptyState (some w6_obs)).1.previous_status = emptyState.previous_status ∧
      (monitorCycle emptyState (some w6_obs)).1.history_file = emptyState.history_file ∧
      (monitorCycle emptyState (some w6_obs)).1.notify_config = emptyState.notify_config) :=
  ⟨by decide, spec_c6.2.2 emptyState w6_obs (by decide)⟩

/-- Witness for C7: registering then unregistering `host1` leaves no
binding, and a registered entry shows up in the `!listnotify` lines. -/
theorem spec_c7_witness :
    dlookup "host1" ((handleNotifyMsg
        ((handleNotifyMsg ⟨[], []⟩ ("!notify_node " ++ "host1") 5).config)
        ("!unnotify_node " ++ "host1") 5).config).nodes = none ∧
    (("host1", 7) ∈ (⟨[("host1", 7)], []⟩ : NotifyConfig).nodes ∧
      nodeLine ("host1", 7) ∈ listnotifyLines ⟨[("host1", 7)], []⟩) :=
  ⟨spec_c7.1 ⟨[], []⟩ "host1" 5 5,
    ⟨by decide, (spec_c7.2.2 ⟨[("host1", 7)], []⟩).1 ("host1", 7) (by decide)⟩⟩

/-- Witness for C8 on a one-file store of naturals. -/
theorem spec_c8_witness :
    (dlookup "cfg" [("cfg", 3)] = some 3 ∧ load_json [("cfg", 3)] "cfg" 0 = 3) ∧
    (dlookup "cfg" ([] : List (String × ℕ)) = none ∧
      load_json ([] : List (String × ℕ)) "cfg" 7 = 7) ∧
    load_json (save_json [("cfg", 3)] "cfg" 9) "cfg" 0 = 9 :=
  ⟨⟨by decide, (spec_c8 [("cfg", 3)] "cfg" 0 9).1 3 (by decide)⟩,
    ⟨by decide, (spec_c8 ([] : List (String × ℕ)) "cfg" 7 9).2.1 (by decide)⟩,
    (spec_c8 [("cfg", 3)] "cfg" 0 9).2.2.2.2⟩

def w9_nd : NodeRec := ⟨"x", "ONLINE", 0, 1, 2⟩

def w9_vm : VmRec := ⟨"x", 100, "stopped", 0, 1, 4⟩

def w9_obs : Obs := ⟨3, [w9_nd], [w9_vm]⟩

/-- Witness for C9: node `x` and VM `x` in one cycle — the VM's status wins
the shared cache slot and the shared history gets both entries. -/
theorem spec_c9_witness :
    (cycleOk w9_obs = true ∧ w9_nd ∈ w9_obs.nodes ∧ w9_vm ∈ w9_obs.vms ∧
      w9_vm.name = w9_nd.node) ∧
    (dlookup w9_nd.node (monitorCycle emptyState (some w9_obs)).1.previous_status =
        some (strUpper w9_vm.status) ∧
      histLookup w9_nd.node (monitorCycle emptyState (some w9_obs)).1.history_data =
        histLookup w9_nd.node emptyState.history_data ++
          [⟨w9_obs.time, w9_nd.cpu, (w9_nd.mem : ℚ) / (w9_nd.maxmem : ℚ)⟩,
           ⟨w9_obs.time, w9_vm.cpu, (w9_vm.mem : ℚ) / (w9_vm.maxmem : ℚ)⟩]) :=
  ⟨⟨by decide, by decide, by decide, by decide⟩,
    spec_c9 emptyState w9_obs w9_nd w9_vm (by decide) (by decide) (by decide) (by decide)
      (by decide) (by decide)⟩

/-- Witness for C10: unregistering the absent `ghost` does nothing at all. -/
theorem spec_c10_witness :
    dlookup "ghost" (⟨[("host1", 7)], []⟩ : NotifyConfig).nodes = none ∧
    handleNotifyMsg ⟨[("host1", 7)], []⟩ ("!unnotify_node " ++ "ghost") 5 =
      ⟨⟨[("host1", 7)], []⟩, [], []⟩ :=
  ⟨by decide, spec_c10.1 ⟨[("host1", 7)], []⟩ "ghost" 5 (by decide)⟩
